import Mathlib

/-!
# MyK3SPlugin: feasibility filter and score normalisation

A shallow embedding of `src/plugins.go` (package `plugins`): the `Filter`
method, which admits or rejects one (pod, node) pair, the `Score` method, which
draws a raw score, and the `NormalizeScore` method, which rescales the raw node
scores of one scheduling attempt.

Conventions of the embedding.

* `resource.Quantity` is an exact decimal number; its `Add`, `Sub` and `Cmp`
  are exact.  A quantity is represented by an integer number of the smallest
  unit in use (for CPU, e.g. nano-cores), so `Add`, `Sub`, `Cmp` become
  `+`, `-` and the order of `Int`.
* A Go map with string keys is an association list read with `List.lookup`;
  reading a missing key of a quantity map gives the zero quantity, reading a
  missing key of a label map gives the empty string.
* `int64` values are integers; every arithmetic operation on them is reduced
  to the signed 64-bit range with `wrap64`.
* A run-time panic of the Go code is an `Except.error` result: index out of
  range, integer division by zero, or nil dereference.
* `Filter` is the method on a snapshot whose node is set; `FilterEntry` is the
  method as the caller may invoke it, on a snapshot whose `Node()` may be nil.
* Calls of `fmt.Println` only write to standard output and are left out.
* The generator of `math/rand` is library code; `Score` takes the seeded
  source as an argument, with the documented contract of `rand.Int63n`.
-/

namespace plugins

/-! ## Data model -/

/-- Run-time faults of the Go program that the embedding makes explicit. -/
inductive Fault where
  | indexOutOfRange
  | integerDivideByZero
  | nilDereference
  deriving DecidableEq, Repr

/-- The type `resource.Quantity`: an exact amount, in the smallest unit. -/
abbrev Quantity := Int

/-- The type `v1.ResourceName`, restricted to the two names the plugin reads. -/
inductive ResourceName where
  | ResourceCPU
  | ResourceMemory
  deriving DecidableEq, Repr

/-- The type `v1.ResourceList`, a map from resource names to quantities. -/
abbrev ResourceList := List (ResourceName × Quantity)

/-- Index expression `m[k]` on a `v1.ResourceList`: the zero quantity when the
key is absent. -/
def ResourceList.index (m : ResourceList) (k : ResourceName) : Quantity :=
  (m.lookup k).getD 0

/-- A `v1.Container`, reduced to `Resources.Requests`. -/
structure Container where
  Requests : ResourceList
  deriving DecidableEq, Repr

/-- A `v1.Pod`, reduced to its name, its labels and `Spec.Containers`. -/
structure Pod where
  Name : String
  Labels : List (String × String)
  Containers : List Container
  deriving DecidableEq, Repr

/-- Index expression `labels[k]` on a label map: the empty string when the key
is absent. -/
def labelIndex (labels : List (String × String)) (k : String) : String :=
  (labels.lookup k).getD ""

/-- A `v1.Node`, reduced to its name and `Status.Capacity`. -/
structure Node where
  Name : String
  Capacity : ResourceList
  deriving DecidableEq, Repr

/-- A `framework.NodeInfo`: the node and the pods bound to it. -/
structure NodeInfo where
  node : Node
  Pods : List Pod
  deriving DecidableEq, Repr

/-- The type `framework.Code`, restricted to the two codes the plugin returns. -/
inductive Code where
  | Success
  | Unschedulable
  deriving DecidableEq, Repr

/-- A `framework.Status`: a code and the reasons given to `NewStatus`. -/
structure Status where
  code : Code
  reasons : List String
  deriving DecidableEq, Repr

/-- The constructor `framework.NewStatus(code, reasons...)`. -/
def NewStatus (code : Code) (reasons : List String) : Status :=
  { code := code, reasons := reasons }

/-! ## Filter -/

/-- First loop of `Filter`: over the pods bound to the node, add the CPU and
memory requests of `Spec.Containers[0]` to the two accumulators.  Indexing an
empty container list is a fault. -/
def sumBoundRequests : List Pod → Quantity → Quantity → Except Fault (Quantity × Quantity)
  | [], requestedCPU, requestedMemory => .ok (requestedCPU, requestedMemory)
  | p :: rest, requestedCPU, requestedMemory =>
    match p.Containers with
    | [] => .error Fault.indexOutOfRange
    | c :: _ =>
      let requests := c.Requests
      sumBoundRequests rest
        (requestedCPU + requests.index ResourceName.ResourceCPU)
        (requestedMemory + requests.index ResourceName.ResourceMemory)

/-- Second loop of `Filter`: add the CPU request of every container of the
candidate pod that declares one. -/
def sumPodCPU : List Container → Quantity → Quantity
  | [], podCPU => podCPU
  | container :: rest, podCPU =>
    match container.Requests.lookup ResourceName.ResourceCPU with
    | some cpu => sumPodCPU rest (podCPU + cpu)
    | none => sumPodCPU rest podCPU

/-- Third loop of `Filter`: the first bound pod that carries the label
`applicationName` with the value `podApp` ends the search with the
co-location rejection; without one the result is `Success`. -/
def checkApplication (podApp : String) : List Pod → Status
  | [] => NewStatus Code.Success []
  | p :: rest =>
    match p.Labels.lookup "applicationName" with
    | some applicationName =>
      if applicationName = podApp then
        NewStatus Code.Unschedulable ["Application already exists on this node"]
      else checkApplication podApp rest
    | none => checkApplication podApp rest

/-- The method `MyK3SPlugin.Filter` on a snapshot whose node is set. -/
def Filter (pod : Pod) (nodeInfo : NodeInfo) : Except Fault Status :=
  let totalNodeCPU := nodeInfo.node.Capacity.index ResourceName.ResourceCPU
  let totalNodeMemory := nodeInfo.node.Capacity.index ResourceName.ResourceMemory
  match sumBoundRequests nodeInfo.Pods 0 0 with
  | .error e => .error e
  | .ok (requestedCPU, requestedMemory) =>
    let availableCPU := totalNodeCPU - requestedCPU
    let _availableMemory := totalNodeMemory - requestedMemory
    let podCPU := sumPodCPU pod.Containers 0
    if availableCPU > podCPU then
      .ok (checkApplication (labelIndex pod.Labels "applicationName") nodeInfo.Pods)
    else
      .ok (NewStatus Code.Unschedulable
        ["Not enough resources to run application: ", labelIndex pod.Labels "applicationName"])

/-- The argument `nodeInfo` of `Filter` as a caller may pass it: `Node()` is nil
until a node is set. -/
structure NodeInfoRef where
  node : Option Node
  Pods : List Pod
  deriving DecidableEq, Repr

/-- The method `MyK3SPlugin.Filter` from its first statement on: the
`fmt.Println` call reads `nodeInfo.Node().Name`, a nil dereference when no node
is set; with a node set the method continues as `Filter`. -/
def FilterEntry (pod : Pod) (ref : NodeInfoRef) : Except Fault Status :=
  match ref.node with
  | none => .error Fault.nilDereference
  | some node => Filter pod { node := node, Pods := ref.Pods }

/-! ## Quantities the specification names -/

/-- CPU request of the first container of a bound workload (zero when the
workload has no container). -/
def firstContainerCPU (p : Pod) : Quantity :=
  match p.Containers.head? with
  | some c => c.Requests.index ResourceName.ResourceCPU
  | none => 0

/-- Consumed CPU of a node: the sum over its bound workloads of the first
container's CPU request. -/
def specConsumedCPU (nodeInfo : NodeInfo) : Quantity :=
  (nodeInfo.Pods.map firstContainerCPU).sum

/-- Available CPU of a node: capacity minus consumed. -/
def specAvailableCPU (nodeInfo : NodeInfo) : Quantity :=
  nodeInfo.node.Capacity.index ResourceName.ResourceCPU - specConsumedCPU nodeInfo

/-- Requested CPU of a pod: the sum of the CPU requests of all its containers. -/
def specRequestedCPU (pod : Pod) : Quantity :=
  (pod.Containers.map (fun c => c.Requests.index ResourceName.ResourceCPU)).sum

/-- Every workload bound to the node has at least one container. -/
def boundHaveContainer (nodeInfo : NodeInfo) : Prop :=
  ∀ p ∈ nodeInfo.Pods, p.Containers ≠ []

/-- Some workload bound to the node carries the label `applicationName` with
the value the pod's label map gives for `applicationName`. -/
def coLocated (pod : Pod) (nodeInfo : NodeInfo) : Prop :=
  ∃ p ∈ nodeInfo.Pods,
    p.Labels.lookup "applicationName" = some (labelIndex pod.Labels "applicationName")

/-- The status `Filter` returns for insufficient CPU. -/
def insufficientStatus (pod : Pod) : Status :=
  NewStatus Code.Unschedulable
    ["Not enough resources to run application: ", labelIndex pod.Labels "applicationName"]

/-- The status `Filter` returns for an application already on the node. -/
def coLocationStatus : Status :=
  NewStatus Code.Unschedulable ["Application already exists on this node"]

/-! ## NormalizeScore -/

/-- A `framework.NodeScore`: a node name and its `int64` score. -/
structure NodeScore where
  Name : String
  Score : Int
  deriving DecidableEq, Repr

/-- The type `framework.NodeScoreList`. -/
abbrev NodeScoreList := List NodeScore

/-- Modelled from the spec: the constant `framework.MaxNodeScore` of the
scheduler framework, which the source imports and the spec calls MaxScore with
the value 100. -/
def MaxNodeScore : Int := 100

/-- The integers an `int64` holds. -/
def isInt64 (x : Int) : Prop := -2 ^ 63 ≤ x ∧ x < 2 ^ 63

instance (x : Int) : Decidable (isInt64 x) := by unfold isInt64; infer_instance

/-- Reduction of an integer to the signed 64-bit range (two's complement). -/
def wrap64 (x : Int) : Int := (x + 2 ^ 63) % 2 ^ 64 - 2 ^ 63

/-- The `int64` operation `a - b`. -/
def sub64 (a b : Int) : Int := wrap64 (a - b)

/-- The `int64` operation `a * b`. -/
def mul64 (a b : Int) : Int := wrap64 (a * b)

/-- The `int64` operation `a / b`: the quotient truncated toward zero, a fault
for a zero divisor. -/
def div64 (a b : Int) : Except Fault Int :=
  if b = 0 then .error Fault.integerDivideByZero else .ok (wrap64 (Int.tdiv a b))

/-- First loop of `NormalizeScore`: lower `lowest` and raise `highest` with
every score of the list; the result is the pair `(highest, lowest)`. -/
def findBounds : NodeScoreList → Int → Int → Int × Int
  | [], highest, lowest => (highest, lowest)
  | nodeScore :: rest, highest, lowest =>
    let lowest := if nodeScore.Score < lowest then nodeScore.Score else lowest
    let highest := if nodeScore.Score > highest then nodeScore.Score else highest
    findBounds rest highest lowest

/-- Second loop of `NormalizeScore`, `n` iterations starting at index `i`:
read `scores[i]`, write the rescaled value to `scores[i].Score`. -/
def rescaleLoop (lowest highest : Int) : Nat → Nat → NodeScoreList → Except Fault NodeScoreList
  | 0, _, scores => .ok scores
  | n + 1, i, scores =>
    match scores[i]? with
    | none => .error Fault.indexOutOfRange
    | some nodeScore =>
      match div64 (mul64 (sub64 nodeScore.Score lowest) MaxNodeScore) (sub64 highest lowest) with
      | .error e => .error e
      | .ok v => rescaleLoop lowest highest n (i + 1) (scores.set i { nodeScore with Score := v })

/-- The method `MyK3SPlugin.NormalizeScore`: the score list after the call and
the returned status (`none` for the nil status). -/
def NormalizeScore (_pod : Pod) (scores : NodeScoreList) :
    Except Fault (NodeScoreList × Option Status) :=
  match scores with
  | [] => .error Fault.indexOutOfRange
  | first :: _ =>
    let bounds := findBounds scores 0 first.Score
    let highest := bounds.1
    let lowest := if highest = bounds.2 then sub64 bounds.2 1 else bounds.2
    match rescaleLoop lowest highest scores.length 0 scores with
    | .error e => .error e
    | .ok scores => .ok (scores, none)

/-! ## Notions the specification names for score lists -/

/-- The raw scores of a list, in order. -/
def rawScores (scores : NodeScoreList) : List Int := scores.map (fun ns => ns.Score)

/-- The value `lo` is the minimum raw score of the list. -/
def isMinOf (lo : Int) (scores : NodeScoreList) : Prop :=
  lo ∈ rawScores scores ∧ ∀ s ∈ rawScores scores, lo ≤ s

/-- The value `hi` is the maximum raw score of the list. -/
def isMaxOf (hi : Int) (scores : NodeScoreList) : Prop :=
  hi ∈ rawScores scores ∧ ∀ s ∈ rawScores scores, s ≤ hi

/-- The list with every score replaced by the value `f` gives for it. -/
def mapScores (f : Int → Int) (scores : NodeScoreList) : NodeScoreList :=
  scores.map (fun ns => { ns with Score := f ns.Score })

/-- The linear rescaling of the specification, with truncating division. -/
def rescale (lowest highest : Int) (s : Int) : Int :=
  Int.tdiv ((s - lowest) * 100) (highest - lowest)

/-- The value one iteration of the second loop writes when the divisor is not
zero: `(s - lowest) * MaxNodeScore / (highest - lowest)` in `int64`. -/
def scoreValue (lowest highest s : Int) : Int :=
  wrap64 (Int.tdiv (mul64 (sub64 s lowest) MaxNodeScore) (sub64 highest lowest))

/-- Every raw score of the list is an `int64`. -/
def validScores (scores : NodeScoreList) : Prop :=
  ∀ s ∈ rawScores scores, isInt64 s

/-- The raw scores of the list are not all equal. -/
def notAllEqual (scores : NodeScoreList) : Prop :=
  ∃ a ∈ rawScores scores, ∃ b ∈ rawScores scores, a ≠ b

instance (lo : Int) (scores : NodeScoreList) : Decidable (isMinOf lo scores) := by
  unfold isMinOf; infer_instance

instance (hi : Int) (scores : NodeScoreList) : Decidable (isMaxOf hi scores) := by
  unfold isMaxOf; infer_instance

instance (scores : NodeScoreList) : Decidable (validScores scores) := by
  unfold validScores; infer_instance

instance (scores : NodeScoreList) : Decidable (notAllEqual scores) := by
  unfold notAllEqual; infer_instance

instance (nodeInfo : NodeInfo) : Decidable (boundHaveContainer nodeInfo) := by
  unfold boundHaveContainer; infer_instance

instance (pod : Pod) (nodeInfo : NodeInfo) : Decidable (coLocated pod nodeInfo) := by
  unfold coLocated; infer_instance

/-! ## Concrete inputs -/

/-- A pod with one container requesting `cpu` and the label
`applicationName = app`. -/
def mkPod (name app : String) (cpu : Quantity) : Pod :=
  { Name := name, Labels := [("applicationName", app)],
    Containers := [{ Requests := [(ResourceName.ResourceCPU, cpu)] }] }

/-- A node with CPU capacity `cpu` and the given bound pods. -/
def mkNode (cpu : Quantity) (pods : List Pod) : NodeInfo :=
  { node := { Name := "node", Capacity := [(ResourceName.ResourceCPU, cpu)] }, Pods := pods }

/-- The raw scores A:10, B:90, C:50. -/
def scoresABC : NodeScoreList := [⟨"A", 10⟩, ⟨"B", 90⟩, ⟨"C", 50⟩]

/-- The raw scores A:42, B:42. -/
def scoresTie : NodeScoreList := [⟨"A", 42⟩, ⟨"B", 42⟩]

/-- The raw scores A:-5, B:-5. -/
def scoresNegTie : NodeScoreList := [⟨"A", -5⟩, ⟨"B", -5⟩]

/-- The raw scores A:-10, B:-5. -/
def scoresNeg : NodeScoreList := [⟨"A", -10⟩, ⟨"B", -5⟩]

/-- The raw scores A:0, B:2^62. -/
def scoresLarge : NodeScoreList := [⟨"A", 0⟩, ⟨"B", 2 ^ 62⟩]

/-- A candidate pod of application "web" requesting 2 units of CPU. -/
def podWeb : Pod := mkPod "p" "web" 2

/-- A container requesting `cpu` units of CPU. -/
def cpuContainer (cpu : Quantity) : Container :=
  { Requests := [(ResourceName.ResourceCPU, cpu)] }

/-- A candidate pod of application "db" without containers. -/
def podEmpty : Pod := { Name := "e", Labels := [("applicationName", "db")], Containers := [] }

/-- A pod without labels, with one container requesting `cpu`. -/
def podNoLabel (name : String) (cpu : Quantity) : Pod :=
  { Name := name, Labels := [],
    Containers := [{ Requests := [(ResourceName.ResourceCPU, cpu)] }] }

/-- A pod of application "web" with two containers: the first requests 1 unit
of CPU and `mem` of memory, the second requests `cpu2` units of CPU. -/
def podTwo (mem cpu2 : Quantity) : Pod :=
  { Name := "t", Labels := [("applicationName", "web")],
    Containers := [{ Requests := [(ResourceName.ResourceCPU, 1), (ResourceName.ResourceMemory, mem)] },
      { Requests := [(ResourceName.ResourceCPU, cpu2)] }] }

/-- A node with CPU capacity 4 and memory capacity `mem`, with one bound
workload `podTwo bmem cpu2`. -/
def nodeTwo (mem bmem cpu2 : Quantity) : NodeInfo :=
  { node :=
      { Name := "node",
        Capacity := [(ResourceName.ResourceCPU, 4), (ResourceName.ResourceMemory, mem)] },
    Pods := [podTwo bmem cpu2] }

/-! ## Snapshots that differ only in part -/

/-- A resource list without its memory entries. -/
def stripMemory (m : ResourceList) : ResourceList :=
  m.filter (fun e => e.1 ≠ ResourceName.ResourceMemory)

/-- A container without its memory requests. -/
def containerNoMemory (c : Container) : Container :=
  { Requests := stripMemory c.Requests }

/-- A pod without the memory requests of its containers. -/
def podNoMemory (p : Pod) : Pod :=
  { p with Containers := p.Containers.map containerNoMemory }

/-- A node snapshot without the memory capacity of the node and without the
memory requests of the bound workloads. -/
def nodeNoMemory (n : NodeInfo) : NodeInfo :=
  { node := { n.node with Capacity := stripMemory n.node.Capacity },
    Pods := n.Pods.map podNoMemory }

/-- A pod without its second and later containers. -/
def podFirstContainer (p : Pod) : Pod :=
  { p with Containers := p.Containers.take 1 }

/-- A node snapshot without the second and later containers of the bound
workloads. -/
def nodeFirstContainers (n : NodeInfo) : NodeInfo :=
  { n with Pods := n.Pods.map podFirstContainer }

/-! ## Score -/

/-- The process-wide random source of `math/rand` after `rand.Seed`: the value
`rand.Int63n(n)` returns for the bound `n`, with the contract the library
documents for it: for a positive `n` the value lies in the half-open interval
from 0 to `n`. -/
structure RandSource where
  Int63n : Int → Int
  inRange : ∀ n : Int, 0 < n → 0 ≤ Int63n n ∧ Int63n n < n

/-- A random source whose draw for the bound `n` is `v` reduced modulo `n`. -/
def fixedSource (v : Int) : RandSource where
  Int63n := fun n => v % n
  inRange := fun _ hn => ⟨Int.emod_nonneg v (ne_of_gt hn), Int.emod_lt_of_pos v hn⟩

/-- The method `MyK3SPlugin.Score`, for the random source `seeded` that
`rand.Seed(time.Now().UnixNano())` leaves: the score and the nil status. -/
def Score (seeded : RandSource) (_pod : Pod) (_nodeName : String) : Int × Option Status :=
  let score := seeded.Int63n 101
  (score, none)

/-! ## Filter: the loops in closed form -/

theorem sumBoundRequests_ok (pods : List Pod) :
    ∀ (a b : Quantity), (∀ p ∈ pods, p.Containers ≠ []) →
      ∃ m, sumBoundRequests pods a b = .ok (a + (pods.map firstContainerCPU).sum, m) := by
  induction pods with
  | nil => intro a b _; exact ⟨b, by simp [sumBoundRequests]⟩
  | cons p rest ih =>
    intro a b h
    have hp : p.Containers ≠ [] := h p (List.mem_cons_self _ _)
    have hrest : ∀ q ∈ rest, q.Containers ≠ [] := fun q hq => h q (List.mem_cons_of_mem _ hq)
    cases hcs : p.Containers with
    | nil => exact absurd hcs hp
    | cons c cs =>
      obtain ⟨m, hm⟩ := ih (a + c.Requests.index ResourceName.ResourceCPU)
        (b + c.Requests.index ResourceName.ResourceMemory) hrest
      refine ⟨m, ?_⟩
      simp only [sumBoundRequests, hcs, hm, List.map_cons, List.sum_cons, firstContainerCPU,
        List.head?_cons]
      rw [Int.add_assoc]

theorem sumPodCPU_eq (cs : List Container) :
    ∀ a : Quantity, sumPodCPU cs a
      = a + (cs.map (fun c => c.Requests.index ResourceName.ResourceCPU)).sum := by
  induction cs with
  | nil => intro a; simp [sumPodCPU]
  | cons c rest ih =>
    intro a
    cases hl : c.Requests.lookup ResourceName.ResourceCPU with
    | none => simp [sumPodCPU, hl, ih, ResourceList.index]
    | some cpu => simp [sumPodCPU, hl, ih, ResourceList.index, Int.add_assoc]

theorem checkApplication_found (app : String) (pods : List Pod)
    (h : ∃ p ∈ pods, p.Labels.lookup "applicationName" = some app) :
    checkApplication app pods = coLocationStatus := by
  induction pods with
  | nil => obtain ⟨p, hp, _⟩ := h; cases hp
  | cons q rest ih =>
    cases hl : q.Labels.lookup "applicationName" with
    | none =>
      have hrest : ∃ p ∈ rest, p.Labels.lookup "applicationName" = some app := by
        obtain ⟨p, hp, hv⟩ := h
        rcases List.mem_cons.mp hp with rfl | hp
        · rw [hl] at hv; cases hv
        · exact ⟨p, hp, hv⟩
      simp only [checkApplication, hl]
      exact ih hrest
    | some v =>
      by_cases hv : v = app
      · simp [checkApplication, hl, hv, coLocationStatus]
      · have hrest : ∃ p ∈ rest, p.Labels.lookup "applicationName" = some app := by
          obtain ⟨p, hp, hpv⟩ := h
          rcases List.mem_cons.mp hp with rfl | hp
          · rw [hl] at hpv; exact absurd (Option.some.inj hpv) hv
          · exact ⟨p, hp, hpv⟩
        simp only [checkApplication, hl, hv, if_false]
        exact ih hrest

theorem checkApplication_absent (app : String) (pods : List Pod)
    (h : ¬ ∃ p ∈ pods, p.Labels.lookup "applicationName" = some app) :
    checkApplication app pods = NewStatus Code.Success [] := by
  induction pods with
  | nil => simp [checkApplication]
  | cons q rest ih =>
    have hrest : ¬ ∃ p ∈ rest, p.Labels.lookup "applicationName" = some app := by
      rintro ⟨p, hp, hv⟩
      exact h ⟨p, List.mem_cons_of_mem _ hp, hv⟩
    cases hl : q.Labels.lookup "applicationName" with
    | none =>
      simp only [checkApplication, hl]
      exact ih hrest
    | some v =>
      have hv : v ≠ app := by
        intro hv
        exact h ⟨q, List.mem_cons_self _ _, by rw [hl, hv]⟩
      simp only [checkApplication, hl, hv, if_false]
      exact ih hrest

/-- With every bound workload holding a container, `Filter` returns, and its
result is decided by the comparison of available and requested CPU. -/
theorem Filter_eq (pod : Pod) (nodeInfo : NodeInfo) (hc : boundHaveContainer nodeInfo) :
    Filter pod nodeInfo =
      if specAvailableCPU nodeInfo > specRequestedCPU pod then
        .ok (checkApplication (labelIndex pod.Labels "applicationName") nodeInfo.Pods)
      else .ok (insufficientStatus pod) := by
  obtain ⟨m, hm⟩ := sumBoundRequests_ok nodeInfo.Pods 0 0 hc
  simp only [Filter, hm, sumPodCPU_eq, specAvailableCPU, specConsumedCPU, specRequestedCPU,
    insufficientStatus, Int.zero_add]

/-! ## Filter: the three verdicts -/

/-- C1: when every bound workload has a container and available CPU (capacity
minus the first-container requests of the bound workloads) is at most the CPU
requested by all containers of the pod, `Filter` returns `Unschedulable` with
the insufficient-resources reason and not the co-location status, whatever the
labels of the bound workloads are. -/
theorem Filter_insufficient (pod : Pod) (nodeInfo : NodeInfo)
    (hc : boundHaveContainer nodeInfo)
    (h : specAvailableCPU nodeInfo ≤ specRequestedCPU pod) :
    Filter pod nodeInfo = .ok (insufficientStatus pod)
      ∧ (insufficientStatus pod).code = Code.Unschedulable
      ∧ (insufficientStatus pod).reasons
          = ["Not enough resources to run application: ", labelIndex pod.Labels "applicationName"]
      ∧ Filter pod nodeInfo ≠ .ok coLocationStatus := by
  have hf : Filter pod nodeInfo = .ok (insufficientStatus pod) := by
    rw [Filter_eq pod nodeInfo hc, if_neg (not_lt.mpr h)]
  refine ⟨hf, rfl, rfl, ?_⟩
  rw [hf]
  intro hEq
  have hr := congrArg (fun st : Status => st.reasons.length) (Except.ok.inj hEq)
  simp [insufficientStatus, coLocationStatus, NewStatus] at hr

/-- Witness for C1: capacity 2, one bound workload of application "web"
requesting 1, candidate pod of application "web" requesting 2: available 1 is
at most 2 and the rejection is for insufficient resources. -/
theorem Filter_insufficient_witness :
    boundHaveContainer (mkNode 2 [mkPod "q" "web" 1])
      ∧ specAvailableCPU (mkNode 2 [mkPod "q" "web" 1]) ≤ specRequestedCPU (mkPod "p" "web" 2)
      ∧ Filter (mkPod "p" "web" 2) (mkNode 2 [mkPod "q" "web" 1])
          = .ok (NewStatus Code.Unschedulable
              ["Not enough resources to run application: ", "web"]) :=
  ⟨by simp [boundHaveContainer, mkNode, mkPod], by decide,
    (Filter_insufficient (mkPod "p" "web" 2) (mkNode 2 [mkPod "q" "web" 1])
      (by simp [boundHaveContainer, mkNode, mkPod]) (by decide)).1⟩

/-- C2: when available CPU strictly exceeds the CPU requested by the pod and
some bound workload carries an `applicationName` label equal to the pod's,
`Filter` returns `Unschedulable` with the co-location reason. -/
theorem Filter_coLocated (pod : Pod) (nodeInfo : NodeInfo)
    (hc : boundHaveContainer nodeInfo)
    (h : specAvailableCPU nodeInfo > specRequestedCPU pod)
    (happ : coLocated pod nodeInfo) :
    Filter pod nodeInfo = .ok coLocationStatus
      ∧ coLocationStatus.code = Code.Unschedulable
      ∧ coLocationStatus.reasons = ["Application already exists on this node"] := by
  refine ⟨?_, rfl, rfl⟩
  rw [Filter_eq pod nodeInfo hc, if_pos h, checkApplication_found _ _ happ]

/-- Witness for C2: capacity 4, one bound workload of application "web"
requesting 1, candidate pod of application "web" requesting 2. -/
theorem Filter_coLocated_witness :
    boundHaveContainer (mkNode 4 [mkPod "q" "web" 1])
      ∧ specAvailableCPU (mkNode 4 [mkPod "q" "web" 1]) > specRequestedCPU (mkPod "p" "web" 2)
      ∧ coLocated (mkPod "p" "web" 2) (mkNode 4 [mkPod "q" "web" 1])
      ∧ Filter (mkPod "p" "web" 2) (mkNode 4 [mkPod "q" "web" 1])
          = .ok (NewStatus Code.Unschedulable ["Application already exists on this node"]) :=
  ⟨by simp [boundHaveContainer, mkNode, mkPod], by decide,
    ⟨mkPod "q" "web" 1, by simp [mkNode], rfl⟩,
    (Filter_coLocated (mkPod "p" "web" 2) (mkNode 4 [mkPod "q" "web" 1])
      (by simp [boundHaveContainer, mkNode, mkPod]) (by decide)
      ⟨mkPod "q" "web" 1, by simp [mkNode], rfl⟩).1⟩

/-- C3: when available CPU strictly exceeds the CPU requested by the pod and no
bound workload carries an `applicationName` label equal to the pod's, `Filter`
returns `Success`; and `Filter` returns a status with code `Success` exactly
when CPU is strictly sufficient and no bound workload is co-located. -/
theorem Filter_success (pod : Pod) (nodeInfo : NodeInfo)
    (hc : boundHaveContainer nodeInfo) :
    (specAvailableCPU nodeInfo > specRequestedCPU pod → ¬ coLocated pod nodeInfo →
        Filter pod nodeInfo = .ok (NewStatus Code.Success []))
      ∧ ((∃ st, Filter pod nodeInfo = .ok st ∧ st.code = Code.Success) ↔
          (specAvailableCPU nodeInfo > specRequestedCPU pod ∧ ¬ coLocated pod nodeInfo)) := by
  have hsucc : specAvailableCPU nodeInfo > specRequestedCPU pod → ¬ coLocated pod nodeInfo →
      Filter pod nodeInfo = .ok (NewStatus Code.Success []) := by
    intro h hno
    rw [Filter_eq pod nodeInfo hc, if_pos h, checkApplication_absent _ _ hno]
  refine ⟨hsucc, ?_, fun ⟨h, hno⟩ => ⟨_, hsucc h hno, rfl⟩⟩
  rintro ⟨st, hst, hcode⟩
  by_cases h : specAvailableCPU nodeInfo > specRequestedCPU pod
  · refine ⟨h, fun happ => ?_⟩
    rw [Filter_eq pod nodeInfo hc, if_pos h, checkApplication_found _ _ happ] at hst
    rw [← Except.ok.inj hst] at hcode
    cases hcode
  · rw [Filter_eq pod nodeInfo hc, if_neg h] at hst
    rw [← Except.ok.inj hst] at hcode
    cases hcode

/-- Witness for C3: capacity 4, one bound workload of application "web"
requesting 1, candidate pod of application "db" requesting 2: admitted. -/
theorem Filter_success_witness :
    boundHaveContainer (mkNode 4 [mkPod "q" "web" 1])
      ∧ Filter (mkPod "p" "db" 2) (mkNode 4 [mkPod "q" "web" 1])
          = .ok (NewStatus Code.Success []) :=
  ⟨by simp [boundHaveContainer, mkNode, mkPod],
    (Filter_success (mkPod "p" "db" 2) (mkNode 4 [mkPod "q" "web" 1])
      (by simp [boundHaveContainer, mkNode, mkPod])).1 (by decide)
      (by simp [coLocated, mkNode, mkPod, labelIndex])⟩

/-! ## NormalizeScore: signed 64-bit arithmetic -/

theorem wrap64_of_isInt64 (x : Int) (h : isInt64 x) : wrap64 x = x := by
  unfold isInt64 at h
  unfold wrap64
  omega

theorem wrap64_ne_zero (x : Int) (h0 : 0 < x) (h1 : x < 2 ^ 64) : wrap64 x ≠ 0 := by
  unfold wrap64
  omega

theorem div64_ok (a b : Int) (hb : b ≠ 0) : div64 a b = .ok (wrap64 (Int.tdiv a b)) := by
  simp [div64, hb]

/-! ## NormalizeScore: the loops in closed form -/

theorem mem_rawScores_cons (ns : NodeScore) (rest : NodeScoreList) (s : Int) :
    s ∈ rawScores (ns :: rest) ↔ s = ns.Score ∨ s ∈ rawScores rest := by
  simp [rawScores]

theorem rescaleLoop_eq (lowest highest : Int) (hd : sub64 highest lowest ≠ 0)
    (post : NodeScoreList) :
    ∀ pre : NodeScoreList,
      rescaleLoop lowest highest post.length pre.length (pre ++ post)
        = .ok (pre ++ mapScores (scoreValue lowest highest) post) := by
  induction post with
  | nil => intro pre; simp [rescaleLoop, mapScores]
  | cons x xs ih =>
    intro pre
    have hget : (pre ++ x :: xs)[pre.length]? = some x := by
      rw [List.getElem?_append_right (Nat.le_refl _)]; simp
    have hset : ∀ y : NodeScore, (pre ++ x :: xs).set pre.length y = (pre ++ [y]) ++ xs := by
      intro y; simp
    have hlen : ∀ y : NodeScore, pre.length + 1 = (pre ++ [y]).length := by
      intro y; simp
    simp only [List.length_cons, rescaleLoop, hget, div64_ok _ _ hd, hset]
    rw [hlen, ih]
    simp [mapScores, scoreValue]

theorem findBounds_spec (scores : NodeScoreList) :
    ∀ h l : Int,
      ((findBounds scores h l).1 = h ∨ (findBounds scores h l).1 ∈ rawScores scores)
        ∧ h ≤ (findBounds scores h l).1
        ∧ (∀ s ∈ rawScores scores, s ≤ (findBounds scores h l).1)
        ∧ ((findBounds scores h l).2 = l ∨ (findBounds scores h l).2 ∈ rawScores scores)
        ∧ (findBounds scores h l).2 ≤ l
        ∧ (∀ s ∈ rawScores scores, (findBounds scores h l).2 ≤ s) := by
  induction scores with
  | nil => intro h l; simp [findBounds, rawScores]
  | cons ns rest ih =>
    intro h l
    simp only [findBounds, mem_rawScores_cons]
    obtain ⟨h1, h2, h3, h4, h5, h6⟩ :=
      ih (if ns.Score > h then ns.Score else h) (if ns.Score < l then ns.Score else l)
    refine ⟨?_, ?_, ?_, ?_, ?_, ?_⟩
    · rcases h1 with h1 | h1
      · rw [h1]; split_ifs <;> simp
      · exact Or.inr (Or.inr h1)
    · refine le_trans ?_ h2; split_ifs <;> omega
    · intro s hs
      rcases hs with rfl | hs
      · refine le_trans ?_ h2; split_ifs <;> omega
      · exact h3 s hs
    · rcases h4 with h4 | h4
      · rw [h4]; split_ifs <;> simp
      · exact Or.inr (Or.inr h4)
    · refine le_trans h5 ?_; split_ifs <;> omega
    · intro s hs
      rcases hs with rfl | hs
      · refine le_trans h5 ?_; split_ifs <;> omega
      · exact h6 s hs

theorem isMinOf_unique (scores : NodeScoreList) (a b : Int)
    (ha : isMinOf a scores) (hb : isMinOf b scores) : a = b :=
  le_antisymm (ha.2 b hb.1) (hb.2 a ha.1)

theorem isMaxOf_unique (scores : NodeScoreList) (a b : Int)
    (ha : isMaxOf a scores) (hb : isMaxOf b scores) : a = b :=
  le_antisymm (hb.2 a ha.1) (ha.2 b hb.1)

theorem rescaleLoop_all (lowest highest : Int) (hd : sub64 highest lowest ≠ 0)
    (scores : NodeScoreList) :
    rescaleLoop lowest highest scores.length 0 scores
      = .ok (mapScores (scoreValue lowest highest) scores) := by
  have h := rescaleLoop_eq lowest highest hd scores []
  simpa using h

/-- Closed form of `NormalizeScore` on a list of `int64` scores with minimum `m`
and maximum `M`: the upper bound used is `max 0 M`, the lower bound is `m`, or
`m - 1` when the two coincide. -/
theorem NormalizeScore_closed (pod : Pod) (scores : NodeScoreList) (m M : Int)
    (hv : validScores scores) (hm : isMinOf m scores) (hM : isMaxOf M scores) :
    NormalizeScore pod scores
      = .ok (mapScores (scoreValue (if max 0 M = m then m - 1 else m) (max 0 M)) scores,
          none) := by
  cases scores with
  | nil => exact absurd hm.1 (by simp [rawScores])
  | cons first rest =>
    obtain ⟨h1, h2, h3, h4, _, h6⟩ := findBounds_spec (first :: rest) 0 first.Score
    have hfirst : first.Score ∈ rawScores (first :: rest) := by simp [rawScores]
    have hlo : (findBounds (first :: rest) 0 first.Score).2 = m := by
      have hmem : (findBounds (first :: rest) 0 first.Score).2 ∈ rawScores (first :: rest) := by
        rcases h4 with h4 | h4
        · rw [h4]; exact hfirst
        · exact h4
      exact le_antisymm (h6 m hm.1) (hm.2 _ hmem)
    have hhi : (findBounds (first :: rest) 0 first.Score).1 = max 0 M := by
      have hle := h3 M hM.1
      rcases h1 with h1 | h1
      · rw [h1] at hle ⊢; omega
      · have := hM.2 _ h1; omega
    have hmv : isInt64 m := hv m hm.1
    have hMv : isInt64 M := hv M hM.1
    have hmM : m ≤ M := hm.2 M hM.1
    unfold isInt64 at hmv hMv
    have hd : sub64 (max 0 M) (if max 0 M = m then sub64 m 1 else m) ≠ 0 := by
      split_ifs with he
      · have h1 : sub64 m 1 = m - 1 := wrap64_of_isInt64 _ (by unfold isInt64; omega)
        rw [h1]
        have h2 : sub64 (max 0 M) (m - 1) = 1 := by
          unfold sub64
          rw [he, show m - (m - 1) = 1 by omega]
          rfl
        rw [h2]; decide
      · exact wrap64_ne_zero _ (by omega) (by omega)
    have hsub : (if max 0 M = m then sub64 m 1 else m) = (if max 0 M = m then m - 1 else m) := by
      split_ifs with he
      · exact wrap64_of_isInt64 _ (by unfold isInt64; omega)
      · rfl
    simp only [NormalizeScore, hlo, hhi]
    rw [rescaleLoop_all _ _ hd, hsub]

theorem exists_isMinOf (scores : NodeScoreList) (hne : scores ≠ []) : ∃ m, isMinOf m scores := by
  cases scores with
  | nil => exact absurd rfl hne
  | cons first rest =>
    obtain ⟨_, _, _, h4, _, h6⟩ := findBounds_spec (first :: rest) 0 first.Score
    refine ⟨(findBounds (first :: rest) 0 first.Score).2, ?_, h6⟩
    rcases h4 with h4 | h4
    · rw [h4]; simp [rawScores]
    · exact h4

theorem exists_isMaxOf (scores : NodeScoreList) (hne : scores ≠ []) : ∃ M, isMaxOf M scores := by
  cases scores with
  | nil => exact absurd rfl hne
  | cons first rest =>
    obtain ⟨h1, _, h3, _, _, _⟩ := findBounds_spec (first :: rest) first.Score 0
    refine ⟨(findBounds (first :: rest) first.Score 0).1, ?_, h3⟩
    rcases h1 with h1 | h1
    · rw [h1]; simp [rawScores]
    · exact h1

theorem mapScores_congr (f g : Int → Int) (scores : NodeScoreList)
    (h : ∀ s ∈ rawScores scores, f s = g s) : mapScores f scores = mapScores g scores := by
  unfold mapScores
  apply List.map_congr_left
  intro ns hns
  have : f ns.Score = g ns.Score := h _ (List.mem_map_of_mem (fun ns => ns.Score) hns)
  rw [this]

theorem mapScores_getElem? (f : Int → Int) (scores : NodeScoreList) (i : Nat) :
    (mapScores f scores)[i]? = (scores[i]?).map (fun ns => { ns with Score := f ns.Score }) := by
  simp [mapScores]

theorem lt_of_notAllEqual (scores : NodeScoreList) (m M : Int)
    (hm : isMinOf m scores) (hM : isMaxOf M scores) (hne : notAllEqual scores) : m < M := by
  obtain ⟨a, ha, b, hb, hab⟩ := hne
  have h1 := hm.2 a ha
  have h2 := hm.2 b hb
  have h3 := hM.2 a ha
  have h4 := hM.2 b hb
  omega

theorem rescale_eq_ediv (lo hi s : Int) (h0 : 0 ≤ s - lo) (h2 : 0 < hi - lo) :
    rescale lo hi s = (s - lo) * 100 / (hi - lo) := by
  unfold rescale
  exact Int.tdiv_eq_ediv (by omega) (by omega)

/-- Without wrap-around the value written by the loop is the truncating
quotient of the specification. -/
theorem scoreValue_eq (lo hi s : Int) (h0 : 0 ≤ s - lo) (h1 : (s - lo) * 100 < 2 ^ 63)
    (h2 : 0 < hi - lo) (h3 : hi - lo < 2 ^ 63) :
    scoreValue lo hi s = rescale lo hi s := by
  have e1 : sub64 s lo = s - lo := wrap64_of_isInt64 _ (by unfold isInt64; omega)
  have e2 : sub64 hi lo = hi - lo := wrap64_of_isInt64 _ (by unfold isInt64; omega)
  have e3 : mul64 (s - lo) MaxNodeScore = (s - lo) * 100 :=
    wrap64_of_isInt64 _ (by unfold isInt64 MaxNodeScore; omega)
  have e4 : Int.tdiv ((s - lo) * 100) (hi - lo) = (s - lo) * 100 / (hi - lo) :=
    Int.tdiv_eq_ediv (by omega) (by omega)
  have h5 : 0 ≤ (s - lo) * 100 / (hi - lo) := Int.ediv_nonneg (by omega) (by omega)
  have h6 : (s - lo) * 100 / (hi - lo) ≤ (s - lo) * 100 := Int.ediv_le_self _ (by omega)
  unfold scoreValue rescale
  rw [e1, e2, e3, e4]
  exact wrap64_of_isInt64 _ (by unfold isInt64; omega)

/-! ## NormalizeScore: the claims -/

/-- C4: for a score list whose raw scores lie in [0, 100] and are not all
equal, with minimum `lo` and maximum `hi`, `NormalizeScore` replaces every raw
score `s` by the truncating quotient `(s - lo) * 100 / (hi - lo)` and returns
the nil status. -/
theorem NormalizeScore_rescale (pod : Pod) (scores : NodeScoreList) (lo hi : Int)
    (hrange : ∀ s ∈ rawScores scores, 0 ≤ s ∧ s ≤ 100)
    (hlo : isMinOf lo scores) (hhi : isMaxOf hi scores) (hne : notAllEqual scores) :
    NormalizeScore pod scores = .ok (mapScores (rescale lo hi) scores, none) := by
  have hv : validScores scores := by
    intro s hs
    have := hrange s hs
    unfold isInt64; omega
  have hlt := lt_of_notAllEqual scores lo hi hlo hhi hne
  have hlo0 := hrange lo hlo.1
  have hhi0 := hrange hi hhi.1
  rw [NormalizeScore_closed pod scores lo hi hv hlo hhi]
  have hmax : max 0 hi = hi := by omega
  rw [hmax, if_neg (by omega)]
  congr 2
  apply mapScores_congr
  intro s hs
  have h1 := hlo.2 s hs
  have h2 := hhi.2 s hs
  exact scoreValue_eq lo hi s (by omega) (by omega) (by omega) (by omega)

/-- Witness for C4: the raw scores A:10, B:90, C:50 become A:0, B:100, C:50. -/
theorem NormalizeScore_rescale_witness :
    (∀ s ∈ rawScores scoresABC, 0 ≤ s ∧ s ≤ 100)
      ∧ isMinOf 10 scoresABC ∧ isMaxOf 90 scoresABC ∧ notAllEqual scoresABC
      ∧ NormalizeScore podWeb scoresABC = .ok (mapScores (rescale 10 90) scoresABC, none)
      ∧ mapScores (rescale 10 90) scoresABC = [⟨"A", 0⟩, ⟨"B", 100⟩, ⟨"C", 50⟩] :=
  ⟨by decide, by decide, by decide, by decide,
    NormalizeScore_rescale podWeb scoresABC 10 90 (by decide) (by decide) (by decide)
      (by decide),
    by decide⟩

/-- C5, as stated, fails: the equal raw scores A:-5, B:-5 are normalised to
A:0, B:0 and not to 100. -/
theorem NormalizeScore_negative_tie :
    NormalizeScore podWeb scoresNegTie = .ok ([⟨"A", 0⟩, ⟨"B", 0⟩], none)
      ∧ NormalizeScore podWeb scoresNegTie
          ≠ .ok (mapScores (fun _ => MaxNodeScore) scoresNegTie, none) := by
  have h : NormalizeScore podWeb scoresNegTie = .ok ([⟨"A", 0⟩, ⟨"B", 0⟩], none) := rfl
  refine ⟨h, ?_⟩
  rw [h]
  intro hEq
  have := congrArg (fun r => r.1.map (fun ns => ns.Score)) (Except.ok.inj hEq)
  revert this
  decide

/-- C5, amended: for every non-empty score list in which every raw score is the
same non-negative `int64` value, `NormalizeScore` sets every score to
`MaxNodeScore` (100). -/
theorem NormalizeScore_tie (pod : Pod) (scores : NodeScoreList) (v : Int)
    (hne : scores ≠ []) (hall : ∀ s ∈ rawScores scores, s = v)
    (h0 : 0 ≤ v) (h1 : v < 2 ^ 63) :
    NormalizeScore pod scores = .ok (mapScores (fun _ => MaxNodeScore) scores, none)
      ∧ MaxNodeScore = 100 := by
  refine ⟨?_, rfl⟩
  obtain ⟨m, hm⟩ := exists_isMinOf scores hne
  have hmv : m = v := hall m hm.1
  subst hmv
  have hM : isMaxOf m scores := ⟨hm.1, fun s hs => le_of_eq (hall s hs)⟩
  have hv : validScores scores := by
    intro s hs
    rw [hall s hs]
    unfold isInt64; omega
  rw [NormalizeScore_closed pod scores m m hv hm hM]
  have hmax : max 0 m = m := by omega
  rw [hmax, if_pos rfl]
  congr 2
  apply mapScores_congr
  intro s hs
  rw [hall s hs]
  unfold scoreValue sub64
  rw [show m - (m - 1) = 1 by omega]
  rfl

/-- Witness for C5 amended: the raw scores A:42, B:42 become A:100, B:100. -/
theorem NormalizeScore_tie_witness :
    scoresTie ≠ [] ∧ (∀ s ∈ rawScores scoresTie, s = 42) ∧ (0 : Int) ≤ 42
      ∧ (42 : Int) < 2 ^ 63
      ∧ NormalizeScore podWeb scoresTie
          = .ok (mapScores (fun _ => MaxNodeScore) scoresTie, none)
      ∧ mapScores (fun _ => MaxNodeScore) scoresTie = [⟨"A", 100⟩, ⟨"B", 100⟩] :=
  ⟨by decide, by decide, by decide, by decide,
    (NormalizeScore_tie podWeb scoresTie 42 (by decide) (by decide) (by decide) (by decide)).1,
    by decide⟩

/-- C6, as stated, fails: in A:-10, B:-5 the maximum -5 is normalised to 50,
and in A:0, B:2^62 the product wraps and the maximum is normalised to 0. -/
theorem NormalizeScore_max_not_100 :
    isMaxOf (-5) scoresNeg ∧ notAllEqual scoresNeg
      ∧ NormalizeScore podWeb scoresNeg = .ok ([⟨"A", 0⟩, ⟨"B", 50⟩], none)
      ∧ isMaxOf (2 ^ 62) scoresLarge ∧ notAllEqual scoresLarge ∧ validScores scoresLarge
      ∧ NormalizeScore podWeb scoresLarge = .ok ([⟨"A", 0⟩, ⟨"B", 0⟩], none) :=
  ⟨by decide, by decide, rfl, by decide, by decide, by decide, rfl⟩

/-- C6, amended: for every score list of `int64` raw scores that are not all
equal, whose maximum `M` is not negative and whose minimum `m` satisfies
`(M - m) * 100 < 2^63` (the product does not wrap), `NormalizeScore` returns
and every entry that held the raw score `M` has the score `MaxNodeScore`. -/
theorem NormalizeScore_max (pod : Pod) (scores : NodeScoreList) (m M : Int)
    (hv : validScores scores) (hm : isMinOf m scores) (hM : isMaxOf M scores)
    (hne : notAllEqual scores) (h0 : 0 ≤ M) (hw : (M - m) * 100 < 2 ^ 63) :
    ∃ out, NormalizeScore pod scores = .ok (out, none)
      ∧ ∀ (i : Nat) (ns : NodeScore), scores[i]? = some ns → ns.Score = M →
          out[i]? = some { ns with Score := MaxNodeScore } := by
  have hlt := lt_of_notAllEqual scores m M hm hM hne
  refine ⟨_, NormalizeScore_closed pod scores m M hv hm hM, ?_⟩
  intro i ns hi hs
  have hmax : max 0 M = M := by omega
  rw [mapScores_getElem?, hi, hmax, if_neg (by omega)]
  have hval : scoreValue m M M = MaxNodeScore := by
    rw [scoreValue_eq m M M (by omega) hw (by omega) (by omega),
      rescale_eq_ediv m M M (by omega) (by omega)]
    exact Int.mul_ediv_cancel_left _ (by omega)
  simp [hs, hval]

/-- Witness for C6 amended: in A:10, B:90, C:50 the entry B holds the maximum
and is normalised to 100. -/
theorem NormalizeScore_max_witness :
    validScores scoresABC ∧ isMinOf 10 scoresABC ∧ isMaxOf 90 scoresABC
      ∧ notAllEqual scoresABC ∧ (0 : Int) ≤ 90 ∧ ((90 : Int) - 10) * 100 < 2 ^ 63
      ∧ ∃ out, NormalizeScore podWeb scoresABC = .ok (out, none)
          ∧ ∀ (i : Nat) (ns : NodeScore), scoresABC[i]? = some ns → ns.Score = 90 →
              out[i]? = some { ns with Score := MaxNodeScore } :=
  ⟨by decide, by decide, by decide, by decide, by decide, by decide,
    NormalizeScore_max podWeb scoresABC 10 90 (by decide) (by decide) (by decide) (by decide)
      (by decide) (by decide)⟩

/-- C7: for every score list of `int64` raw scores that are not all equal, with
minimum `m`, `NormalizeScore` returns and every entry that held the raw score
`m` has the score 0. -/
theorem NormalizeScore_min (pod : Pod) (scores : NodeScoreList) (m : Int)
    (hv : validScores scores) (hm : isMinOf m scores) (hne : notAllEqual scores) :
    ∃ out, NormalizeScore pod scores = .ok (out, none)
      ∧ ∀ (i : Nat) (ns : NodeScore), scores[i]? = some ns → ns.Score = m →
          out[i]? = some { ns with Score := 0 } := by
  have hnil : scores ≠ [] := by
    rintro rfl
    exact absurd hm.1 (by simp [rawScores])
  obtain ⟨M, hM⟩ := exists_isMaxOf scores hnil
  have hlt := lt_of_notAllEqual scores m M hm hM hne
  refine ⟨_, NormalizeScore_closed pod scores m M hv hm hM, ?_⟩
  intro i ns hi hs
  rw [mapScores_getElem?, hi, if_neg (by omega)]
  have hval : scoreValue m (max 0 M) m = 0 := by
    unfold scoreValue sub64 mul64
    rw [Int.sub_self]
    have hz : wrap64 0 = 0 := rfl
    rw [hz, Int.zero_mul, hz, Int.zero_tdiv, hz]
  simp [hs, hval]

/-- Witness for C7: in A:10, B:90, C:50 the entry A holds the minimum and is
normalised to 0. -/
theorem NormalizeScore_min_witness :
    validScores scoresABC ∧ isMinOf 10 scoresABC ∧ notAllEqual scoresABC
      ∧ ∃ out, NormalizeScore podWeb scoresABC = .ok (out, none)
          ∧ ∀ (i : Nat) (ns : NodeScore), scoresABC[i]? = some ns → ns.Score = 10 →
              out[i]? = some { ns with Score := 0 } :=
  ⟨by decide, by decide, by decide,
    NormalizeScore_min podWeb scoresABC 10 (by decide) (by decide) (by decide)⟩

/-- C8, as stated, fails: called with the empty list, `NormalizeScore` faults
with an index out of range and returns no status. -/
theorem NormalizeScore_empty_faults :
    NormalizeScore podWeb [] = .error Fault.indexOutOfRange
      ∧ ¬ ∃ out st, NormalizeScore podWeb [] = .ok (out, st) := by
  refine ⟨rfl, ?_⟩
  rintro ⟨out, st, h⟩
  cases h

/-- C8, amended: called with the empty list, `NormalizeScore` faults on the
index of the first element; it has no error status: no call returns a status
other than nil. -/
theorem NormalizeScore_status (pod : Pod) :
    NormalizeScore pod [] = .error Fault.indexOutOfRange
      ∧ ∀ (scores out : NodeScoreList) (st : Status),
          NormalizeScore pod scores ≠ .ok (out, some st) := by
  refine ⟨rfl, ?_⟩
  intro scores out st h
  cases scores with
  | nil => cases h
  | cons first rest =>
    simp only [NormalizeScore] at h
    split at h
    · cases h
    · cases h

theorem mapScores_length (f : Int → Int) (scores : NodeScoreList) :
    (mapScores f scores).length = scores.length := by
  simp [mapScores]

theorem mapScores_names (f : Int → Int) (scores : NodeScoreList) :
    (mapScores f scores).map (fun ns => ns.Name) = scores.map (fun ns => ns.Name) := by
  simp [mapScores]

theorem mem_rawScores_of_getElem? (scores : NodeScoreList) (i : Nat) (ns : NodeScore)
    (h : scores[i]? = some ns) : ns.Score ∈ rawScores scores := by
  unfold rawScores
  exact List.mem_map_of_mem (fun ns => ns.Score) (List.getElem?_mem h)

/-- C9: for every non-empty score list whose raw scores have absolute value at
most 2^31, `NormalizeScore` returns a list of the same length in which, for any
two positions, a smaller or equal raw score has a smaller or equal normalised
score, and equal raw scores have equal normalised scores. -/
theorem NormalizeScore_monotone (pod : Pod) (scores : NodeScoreList)
    (hne : scores ≠ []) (hb : ∀ s ∈ rawScores scores, -2 ^ 31 ≤ s ∧ s ≤ 2 ^ 31) :
    ∃ out, NormalizeScore pod scores = .ok (out, none)
      ∧ out.length = scores.length
      ∧ ∀ (i j : Nat) (a b a' b' : NodeScore),
          scores[i]? = some a → scores[j]? = some b →
          out[i]? = some a' → out[j]? = some b' →
          (a.Score ≤ b.Score → a'.Score ≤ b'.Score)
            ∧ (a.Score = b.Score → a'.Score = b'.Score) := by
  obtain ⟨m, hm⟩ := exists_isMinOf scores hne
  obtain ⟨M, hM⟩ := exists_isMaxOf scores hne
  have hv : validScores scores := by
    intro s hs
    have := hb s hs
    unfold isInt64; omega
  have hmb := hb m hm.1
  have hMb := hb M hM.1
  have hmM : m ≤ M := hm.2 M hM.1
  have key : ∀ lo : Int, lo ≤ m → m - 1 ≤ lo → lo < max 0 M →
      ∀ s ∈ rawScores scores, scoreValue lo (max 0 M) s = (s - lo) * 100 / (max 0 M - lo) := by
    intro lo h1 h2 h3 s hs
    have hsb := hb s hs
    have hms := hm.2 s hs
    rw [scoreValue_eq lo (max 0 M) s (by omega) (by omega) (by omega) (by omega),
      rescale_eq_ediv lo (max 0 M) s (by omega) (by omega)]
  have hlo : ∃ lo : Int, lo = (if max 0 M = m then m - 1 else m) ∧ lo ≤ m ∧ m - 1 ≤ lo
      ∧ lo < max 0 M := by
    refine ⟨_, rfl, ?_, ?_, ?_⟩ <;> split_ifs <;> omega
  obtain ⟨lo, hdef, h1, h2, h3⟩ := hlo
  refine ⟨_, NormalizeScore_closed pod scores m M hv hm hM, mapScores_length _ _, ?_⟩
  rw [← hdef]
  intro i j a b a' b' hi hj hi' hj'
  rw [mapScores_getElem?, hi] at hi'
  rw [mapScores_getElem?, hj] at hj'
  have ha : a'.Score = (a.Score - lo) * 100 / (max 0 M - lo) := by
    rw [← Option.some.inj hi']
    exact key lo h1 h2 h3 _ (mem_rawScores_of_getElem? scores i a hi)
  have hb' : b'.Score = (b.Score - lo) * 100 / (max 0 M - lo) := by
    rw [← Option.some.inj hj']
    exact key lo h1 h2 h3 _ (mem_rawScores_of_getElem? scores j b hj)
  rw [ha, hb']
  refine ⟨fun hle => Int.ediv_le_ediv (by omega) (by omega), fun heq => by rw [heq]⟩

/-- Witness for C9: the raw scores A:-10, B:-5 satisfy the bound and are
normalised to a list of the same length. -/
theorem NormalizeScore_monotone_witness :
    scoresNeg ≠ [] ∧ (∀ s ∈ rawScores scoresNeg, -2 ^ 31 ≤ s ∧ s ≤ 2 ^ 31)
      ∧ ∃ out, NormalizeScore podWeb scoresNeg = .ok (out, none)
          ∧ out.length = scoresNeg.length
          ∧ ∀ (i j : Nat) (a b a' b' : NodeScore),
              scoresNeg[i]? = some a → scoresNeg[j]? = some b →
              out[i]? = some a' → out[j]? = some b' →
              (a.Score ≤ b.Score → a'.Score ≤ b'.Score)
                ∧ (a.Score = b.Score → a'.Score = b'.Score) :=
  ⟨by decide, by decide, NormalizeScore_monotone podWeb scoresNeg (by decide) (by decide)⟩

/-- C10: for every non-empty list of `int64` scores, `NormalizeScore` returns a
list of the same length with the same node name at every position. -/
theorem NormalizeScore_frame (pod : Pod) (scores : NodeScoreList)
    (hne : scores ≠ []) (hv : validScores scores) :
    ∃ out st, NormalizeScore pod scores = .ok (out, st)
      ∧ out.length = scores.length
      ∧ out.map (fun ns => ns.Name) = scores.map (fun ns => ns.Name)
      ∧ ∀ (i : Nat) (ns : NodeScore), scores[i]? = some ns →
          ∃ v, out[i]? = some { ns with Score := v } := by
  obtain ⟨m, hm⟩ := exists_isMinOf scores hne
  obtain ⟨M, hM⟩ := exists_isMaxOf scores hne
  refine ⟨_, none, NormalizeScore_closed pod scores m M hv hm hM, mapScores_length _ _,
    mapScores_names _ _, ?_⟩
  intro i ns hi
  exact ⟨_, by rw [mapScores_getElem?, hi]; rfl⟩

/-- Witness for C10: the list A:10, B:90, C:50 keeps its length and the names
A, B, C in order. -/
theorem NormalizeScore_frame_witness :
    scoresABC ≠ [] ∧ validScores scoresABC
      ∧ ∃ out st, NormalizeScore podWeb scoresABC = .ok (out, st)
          ∧ out.length = scoresABC.length
          ∧ out.map (fun ns => ns.Name) = scoresABC.map (fun ns => ns.Name)
          ∧ ∀ (i : Nat) (ns : NodeScore), scoresABC[i]? = some ns →
              ∃ v, out[i]? = some { ns with Score := v } :=
  ⟨by decide, by decide, NormalizeScore_frame podWeb scoresABC (by decide) (by decide)⟩

/-! ## NormalizeScore without wrap-around -/

theorem rawScores_mapScores (f : Int → Int) (scores : NodeScoreList) :
    rawScores (mapScores f scores) = (rawScores scores).map f := by
  simp [rawScores, mapScores, Function.comp_def]

theorem mapScores_id (f : Int → Int) (scores : NodeScoreList)
    (h : ∀ s ∈ rawScores scores, f s = s) : mapScores f scores = scores := by
  have h1 : mapScores f scores = mapScores (fun s => s) scores :=
    mapScores_congr f (fun s => s) scores h
  rw [h1]
  simp [mapScores]

theorem rescale_bounds (lo hi s : Int) (h0 : lo ≤ s) (h1 : s ≤ hi) (h2 : lo < hi) :
    0 ≤ rescale lo hi s ∧ rescale lo hi s ≤ 100 := by
  rw [rescale_eq_ediv lo hi s (by omega) (by omega)]
  refine ⟨Int.ediv_nonneg (by omega) (by omega), ?_⟩
  have h3 : (s - lo) * 100 / (hi - lo) ≤ (hi - lo) * 100 / (hi - lo) :=
    Int.ediv_le_ediv (by omega) (by omega)
  rw [Int.mul_ediv_cancel_left _ (by omega)] at h3
  exact h3

theorem rescale_monotone (lo hi a b : Int) (h0 : lo ≤ a) (h1 : a ≤ b) (h2 : lo < hi) :
    rescale lo hi a ≤ rescale lo hi b := by
  rw [rescale_eq_ediv lo hi a (by omega) (by omega),
    rescale_eq_ediv lo hi b (by omega) (by omega)]
  exact Int.ediv_le_ediv (by omega) (by omega)

theorem rescale_lowest (lo hi : Int) : rescale lo hi lo = 0 := by
  unfold rescale
  rw [Int.sub_self, Int.zero_mul, Int.zero_tdiv]

theorem rescale_highest (lo hi : Int) (h : lo < hi) : rescale lo hi hi = 100 := by
  rw [rescale_eq_ediv lo hi hi (by omega) (by omega)]
  exact Int.mul_ediv_cancel_left _ (by omega)

/-- Closed form of `NormalizeScore` when no `int64` operation wraps: every score
becomes the truncating quotient with upper bound `max 0 M` and lower bound `m`,
or `m - 1` when the two coincide. -/
theorem NormalizeScore_noWrap (pod : Pod) (scores : NodeScoreList) (m M : Int)
    (hv : validScores scores) (hm : isMinOf m scores) (hM : isMaxOf M scores)
    (hw : (max 0 M - m + 1) * 100 < 2 ^ 63) :
    NormalizeScore pod scores
      = .ok (mapScores (rescale (if max 0 M = m then m - 1 else m) (max 0 M)) scores,
          none) := by
  rw [NormalizeScore_closed pod scores m M hv hm hM]
  congr 2
  apply mapScores_congr
  intro s hs
  have h1 := hm.2 s hs
  have h2 := hM.2 s hs
  split_ifs with he
  · exact scoreValue_eq _ _ s (by omega) (by omega) (by omega) (by omega)
  · exact scoreValue_eq _ _ s (by omega) (by omega) (by omega) (by omega)

/-- C11: for every non-empty score list whose raw scores have absolute value at
most 2^31, `NormalizeScore` returns a list of the same length in which every
score lies in the closed range from 0 to `MaxNodeScore` (100). -/
theorem NormalizeScore_range (pod : Pod) (scores : NodeScoreList)
    (hne : scores ≠ []) (hb : ∀ s ∈ rawScores scores, -2 ^ 31 ≤ s ∧ s ≤ 2 ^ 31) :
    ∃ out, NormalizeScore pod scores = .ok (out, none)
      ∧ out.length = scores.length
      ∧ (∀ s ∈ rawScores out, 0 ≤ s ∧ s ≤ MaxNodeScore)
      ∧ MaxNodeScore = 100 := by
  obtain ⟨m, hm⟩ := exists_isMinOf scores hne
  obtain ⟨M, hM⟩ := exists_isMaxOf scores hne
  have hv : validScores scores := by
    intro s hs
    have := hb s hs
    unfold isInt64; omega
  have hmb := hb m hm.1
  have hMb := hb M hM.1
  have hmM : m ≤ M := hm.2 M hM.1
  refine ⟨_, NormalizeScore_noWrap pod scores m M hv hm hM (by omega), mapScores_length _ _,
    ?_, rfl⟩
  intro s hs
  rw [rawScores_mapScores] at hs
  obtain ⟨r, hr, rfl⟩ := List.mem_map.mp hs
  have h1 := hm.2 r hr
  have h2 := hM.2 r hr
  unfold MaxNodeScore
  split_ifs with he
  · exact rescale_bounds _ _ r (by omega) (by omega) (by omega)
  · exact rescale_bounds _ _ r (by omega) (by omega) (by omega)

/-- Witness for C11: the raw scores A:-10, B:-5 are normalised to scores
between 0 and 100. -/
theorem NormalizeScore_range_witness :
    scoresNeg ≠ [] ∧ (∀ s ∈ rawScores scoresNeg, -2 ^ 31 ≤ s ∧ s ≤ 2 ^ 31)
      ∧ ∃ out, NormalizeScore podWeb scoresNeg = .ok (out, none)
          ∧ out.length = scoresNeg.length
          ∧ (∀ s ∈ rawScores out, 0 ≤ s ∧ s ≤ MaxNodeScore)
          ∧ MaxNodeScore = 100 :=
  ⟨by decide, by decide, NormalizeScore_range podWeb scoresNeg (by decide) (by decide)⟩

/-- C17: when no `int64` operation wraps, `NormalizeScore` uses the upper bound
`max 0 M` (not the maximum `M`) and the lower bound `m`, or `m - 1` when the
two coincide, and every score becomes the truncating quotient for these bounds;
so when all raw scores are negative an entry with the maximum raw score gets
less than 100, and equal negative raw scores all become 0. -/
theorem NormalizeScore_upper_bound (pod : Pod) (scores : NodeScoreList) (m M : Int)
    (hv : validScores scores) (hm : isMinOf m scores) (hM : isMaxOf M scores)
    (hw : (max 0 M - m + 1) * 100 < 2 ^ 63) :
    NormalizeScore pod scores
        = .ok (mapScores (rescale (if max 0 M = m then m - 1 else m) (max 0 M)) scores,
            none)
      ∧ (M < 0 → rescale (if max 0 M = m then m - 1 else m) (max 0 M) M < 100)
      ∧ (M < 0 → m = M →
          mapScores (rescale (if max 0 M = m then m - 1 else m) (max 0 M)) scores
            = mapScores (fun _ => 0) scores) := by
  have hmM : m ≤ M := hm.2 M hM.1
  refine ⟨NormalizeScore_noWrap pod scores m M hv hm hM hw, ?_, ?_⟩
  · intro hneg
    have hmax : max 0 M = 0 := by omega
    rw [hmax, if_neg (by omega), rescale_eq_ediv m 0 M (by omega) (by omega)]
    have h1 : (M - m) * 100 < 100 * (0 - m) := by omega
    exact Int.ediv_lt_of_lt_mul (by omega) h1
  · intro hneg hEq
    have hmax : max 0 M = 0 := by omega
    rw [hmax, if_neg (by omega)]
    apply mapScores_congr
    intro s hs
    have h1 := hm.2 s hs
    have h2 := hM.2 s hs
    have hs0 : s = m := by omega
    rw [hs0]
    exact rescale_lowest m 0

/-- Witness for C17: for A:-10, B:-5 the bounds are -10 and 0 and the result is
A:0, B:50. -/
theorem NormalizeScore_upper_bound_witness :
    validScores scoresNeg ∧ isMinOf (-10) scoresNeg ∧ isMaxOf (-5) scoresNeg
      ∧ (max 0 (-5) - (-10) + 1) * 100 < (2 : Int) ^ 63
      ∧ NormalizeScore podWeb scoresNeg
          = .ok (mapScores
              (rescale (if max 0 (-5) = (-10 : Int) then -10 - 1 else -10) (max 0 (-5)))
              scoresNeg, none)
      ∧ mapScores (rescale (if max 0 (-5) = (-10 : Int) then -10 - 1 else -10) (max 0 (-5)))
          scoresNeg = [⟨"A", 0⟩, ⟨"B", 50⟩] :=
  ⟨by decide, by decide, by decide, by decide,
    (NormalizeScore_upper_bound podWeb scoresNeg (-10) (-5) (by decide) (by decide)
      (by decide) (by decide)).1,
    by decide⟩

theorem rescale_strict (lo hi a b : Int) (h0 : lo ≤ a) (h1 : a < b) (h2 : lo < hi)
    (h3 : hi - lo ≤ 100) : rescale lo hi a < rescale lo hi b := by
  rw [rescale_eq_ediv lo hi a (by omega) (by omega),
    rescale_eq_ediv lo hi b (by omega) (by omega)]
  have hstep : ((a - lo) * 100 + 1 * (hi - lo)) / (hi - lo) = (a - lo) * 100 / (hi - lo) + 1 :=
    Int.add_mul_ediv_right _ _ (by omega)
  have hle : ((a - lo) * 100 + 1 * (hi - lo)) / (hi - lo) ≤ (b - lo) * 100 / (hi - lo) :=
    Int.ediv_le_ediv (by omega) (by omega)
  omega

/-- C18: for every non-empty score list whose raw scores lie in [0, 100],
`NormalizeScore` returns a list of the same length in which, for any two
positions, the raw score of the first is strictly smaller exactly when its
normalised score is strictly smaller. -/
theorem NormalizeScore_strict (pod : Pod) (scores : NodeScoreList)
    (hne : scores ≠ []) (hrange : ∀ s ∈ rawScores scores, 0 ≤ s ∧ s ≤ 100) :
    ∃ out, NormalizeScore pod scores = .ok (out, none)
      ∧ out.length = scores.length
      ∧ ∀ (i j : Nat) (a b a' b' : NodeScore),
          scores[i]? = some a → scores[j]? = some b →
          out[i]? = some a' → out[j]? = some b' →
          (a.Score < b.Score ↔ a'.Score < b'.Score) := by
  obtain ⟨m, hm⟩ := exists_isMinOf scores hne
  obtain ⟨M, hM⟩ := exists_isMaxOf scores hne
  have hv : validScores scores := by
    intro s hs
    have := hrange s hs
    unfold isInt64; omega
  have hmb := hrange m hm.1
  have hMb := hrange M hM.1
  have hmM : m ≤ M := hm.2 M hM.1
  have hlo : ∃ lo : Int, lo = (if max 0 M = m then m - 1 else m) ∧ lo ≤ m
      ∧ lo < max 0 M ∧ max 0 M - lo ≤ 100 := by
    refine ⟨_, rfl, ?_, ?_, ?_⟩ <;> split_ifs <;> omega
  obtain ⟨lo, hdef, h1, h2, h3⟩ := hlo
  refine ⟨_, NormalizeScore_noWrap pod scores m M hv hm hM (by omega), mapScores_length _ _, ?_⟩
  rw [← hdef]
  intro i j a b a' b' hi hj hi' hj'
  rw [mapScores_getElem?, hi] at hi'
  rw [mapScores_getElem?, hj] at hj'
  have ha : a'.Score = rescale lo (max 0 M) a.Score := by
    rw [← Option.some.inj hi']
  have hb : b'.Score = rescale lo (max 0 M) b.Score := by
    rw [← Option.some.inj hj']
  have hma := hm.2 _ (mem_rawScores_of_getElem? scores i a hi)
  have hmb' := hm.2 _ (mem_rawScores_of_getElem? scores j b hj)
  rw [ha, hb]
  constructor
  · intro hlt
    exact rescale_strict lo (max 0 M) a.Score b.Score (by omega) hlt h2 h3
  · intro hlt
    by_contra hnot
    have hle := rescale_monotone lo (max 0 M) b.Score a.Score (by omega) (by omega) h2
    omega

/-- Witness for C18: the raw scores A:10, B:90, C:50 lie in [0, 100] and keep
their strict order. -/
theorem NormalizeScore_strict_witness :
    scoresABC ≠ [] ∧ (∀ s ∈ rawScores scoresABC, 0 ≤ s ∧ s ≤ 100)
      ∧ ∃ out, NormalizeScore podWeb scoresABC = .ok (out, none)
          ∧ out.length = scoresABC.length
          ∧ ∀ (i j : Nat) (a b a' b' : NodeScore),
              scoresABC[i]? = some a → scoresABC[j]? = some b →
              out[i]? = some a' → out[j]? = some b' →
              (a.Score < b.Score ↔ a'.Score < b'.Score) :=
  ⟨by decide, by decide, NormalizeScore_strict podWeb scoresABC (by decide) (by decide)⟩

theorem mem_rawScores_mapScores (f : Int → Int) (scores : NodeScoreList) (s : Int)
    (hs : s ∈ rawScores scores) : f s ∈ rawScores (mapScores f scores) := by
  rw [rawScores_mapScores]
  exact List.mem_map_of_mem f hs

/-- C19: for every non-empty score list whose raw scores lie in [0, 2^31],
`NormalizeScore` returns a list on which a second call of `NormalizeScore`
returns the same list. -/
theorem NormalizeScore_idempotent (pod : Pod) (scores : NodeScoreList)
    (hne : scores ≠ []) (hrange : ∀ s ∈ rawScores scores, 0 ≤ s ∧ s ≤ 2 ^ 31) :
    ∃ out, NormalizeScore pod scores = .ok (out, none)
      ∧ NormalizeScore pod out = .ok (out, none) := by
  obtain ⟨m, hm⟩ := exists_isMinOf scores hne
  obtain ⟨M, hM⟩ := exists_isMaxOf scores hne
  have hv : validScores scores := by
    intro s hs
    have := hrange s hs
    unfold isInt64; omega
  have hmb := hrange m hm.1
  have hMb := hrange M hM.1
  have hmM : m ≤ M := hm.2 M hM.1
  have hlo : ∃ lo : Int, lo = (if max 0 M = m then m - 1 else m) ∧ lo ≤ m
      ∧ lo < max 0 M ∧ (m < M → lo = m) ∧ (m = M → lo = m - 1) := by
    refine ⟨_, rfl, ?_, ?_, ?_, ?_⟩ <;> split_ifs <;> omega
  obtain ⟨lo, hdef, h1, h2, h3, h4⟩ := hlo
  have hmax : max 0 M = M := by omega
  refine ⟨_, NormalizeScore_noWrap pod scores m M hv hm hM (by omega), ?_⟩
  rw [← hdef, hmax]
  rw [hmax] at h2
  have hout : ∀ s ∈ rawScores (mapScores (rescale lo M) scores), 0 ≤ s ∧ s ≤ 100 := by
    intro s hs
    rw [rawScores_mapScores] at hs
    obtain ⟨r, hr, rfl⟩ := List.mem_map.mp hs
    exact rescale_bounds lo M r (by have := hm.2 r hr; omega) (hM.2 r hr) h2
  have hv2 : validScores (mapScores (rescale lo M) scores) := by
    intro s hs
    have := hout s hs
    unfold isInt64; omega
  have hM2 : isMaxOf 100 (mapScores (rescale lo M) scores) := by
    refine ⟨?_, fun s hs => (hout s hs).2⟩
    have := mem_rawScores_mapScores (rescale lo M) scores M hM.1
    rwa [rescale_highest lo M h2] at this
  rcases lt_or_eq_of_le hmM with hlt | heq
  · have hlom : lo = m := h3 hlt
    have hm2 : isMinOf 0 (mapScores (rescale lo M) scores) := by
      refine ⟨?_, fun s hs => (hout s hs).1⟩
      have := mem_rawScores_mapScores (rescale lo M) scores m hm.1
      rw [hlom] at this ⊢
      rwa [rescale_lowest m M] at this
    rw [NormalizeScore_noWrap pod _ 0 100 hv2 hm2 hM2 (by decide)]
    congr 2
    apply mapScores_id
    intro s hs
    have hs' := hout s hs
    have hif : (if max 0 (100 : Int) = 0 then (0 : Int) - 1 else 0) = 0 := by decide
    have hmx : max 0 (100 : Int) = 100 := by decide
    rw [hif, hmx, rescale_eq_ediv 0 100 s (by omega) (by omega)]
    omega
  · have hlom : lo = m - 1 := h4 heq
    have hall : ∀ s ∈ rawScores (mapScores (rescale lo M) scores), s = 100 := by
      intro s hs
      rw [rawScores_mapScores] at hs
      obtain ⟨r, hr, rfl⟩ := List.mem_map.mp hs
      have hr1 := hm.2 r hr
      have hr2 := hM.2 r hr
      have hrM : r = M := by omega
      rw [hrM]
      exact rescale_highest lo M h2
    have hm2 : isMinOf 100 (mapScores (rescale lo M) scores) :=
      ⟨hM2.1, fun s hs => le_of_eq (hall s hs).symm⟩
    rw [NormalizeScore_noWrap pod _ 100 100 hv2 hm2 hM2 (by decide)]
    congr 2
    apply mapScores_id
    intro s hs
    rw [hall s hs]
    decide

/-- Witness for C19: normalising A:10, B:90, C:50 twice gives the same list as
normalising it once. -/
theorem NormalizeScore_idempotent_witness :
    scoresABC ≠ [] ∧ (∀ s ∈ rawScores scoresABC, 0 ≤ s ∧ s ≤ 2 ^ 31)
      ∧ ∃ out, NormalizeScore podWeb scoresABC = .ok (out, none)
          ∧ NormalizeScore podWeb out = .ok (out, none) :=
  ⟨by decide, by decide, NormalizeScore_idempotent podWeb scoresABC (by decide) (by decide)⟩

/-! ## Filter: what the verdict depends on -/

/-- The result of `Filter` is determined by the CPU capacity, the CPU sum of
the first loop, the CPU sum of the second loop, the pod's application name and
the outcome of the label loop. -/
theorem Filter_congr (pod1 pod2 : Pod) (n1 n2 : NodeInfo)
    (hcap : n1.node.Capacity.index ResourceName.ResourceCPU
      = n2.node.Capacity.index ResourceName.ResourceCPU)
    (hsum : (sumBoundRequests n1.Pods 0 0).map Prod.fst
      = (sumBoundRequests n2.Pods 0 0).map Prod.fst)
    (hpod : sumPodCPU pod1.Containers 0 = sumPodCPU pod2.Containers 0)
    (hlab : labelIndex pod1.Labels "applicationName" = labelIndex pod2.Labels "applicationName")
    (hchk : ∀ app, checkApplication app n1.Pods = checkApplication app n2.Pods) :
    Filter pod1 n1 = Filter pod2 n2 := by
  unfold Filter
  cases h1 : sumBoundRequests n1.Pods 0 0 with
  | error e1 =>
    cases h2 : sumBoundRequests n2.Pods 0 0 with
    | error e2 =>
      rw [h1, h2] at hsum
      simp only [Except.map] at hsum
      simp only
      rw [Except.error.inj hsum]
    | ok r2 =>
      rw [h1, h2] at hsum
      simp [Except.map] at hsum
  | ok r1 =>
    cases h2 : sumBoundRequests n2.Pods 0 0 with
    | error e2 =>
      rw [h1, h2] at hsum
      simp [Except.map] at hsum
    | ok r2 =>
      rw [h1, h2] at hsum
      simp only [Except.map] at hsum
      have hfst : r1.1 = r2.1 := Except.ok.inj hsum
      obtain ⟨c1, m1⟩ := r1
      obtain ⟨c2, m2⟩ := r2
      simp only at hfst
      subst hfst
      simp only [hcap, hpod, hlab, hchk]

theorem lookup_stripMemory (m : ResourceList) :
    (stripMemory m).lookup ResourceName.ResourceCPU = m.lookup ResourceName.ResourceCPU := by
  induction m with
  | nil => rfl
  | cons e rest ih =>
    obtain ⟨k, v⟩ := e
    unfold stripMemory at ih ⊢
    cases k with
    | ResourceCPU => simp [List.filter_cons, List.lookup_cons]
    | ResourceMemory =>
      have hne : (ResourceName.ResourceCPU == ResourceName.ResourceMemory) = false := by decide
      simpa [List.filter_cons, List.lookup_cons, hne] using ih

theorem index_stripMemory (m : ResourceList) :
    ResourceList.index (stripMemory m) ResourceName.ResourceCPU
      = ResourceList.index m ResourceName.ResourceCPU := by
  unfold ResourceList.index
  rw [lookup_stripMemory]

theorem sumBoundRequests_noMemory (pods : List Pod) :
    ∀ a b b' : Quantity,
      (sumBoundRequests (pods.map podNoMemory) a b').map Prod.fst
        = (sumBoundRequests pods a b).map Prod.fst := by
  induction pods with
  | nil => intro a b b'; simp [sumBoundRequests, Except.map]
  | cons p rest ih =>
    intro a b b'
    cases hcs : p.Containers with
    | nil => simp [sumBoundRequests, podNoMemory, hcs, Except.map]
    | cons c cs =>
      simp only [List.map_cons, sumBoundRequests, podNoMemory, hcs, containerNoMemory,
        index_stripMemory]
      exact ih _ _ _

theorem sumPodCPU_noMemory (cs : List Container) :
    ∀ a : Quantity, sumPodCPU (cs.map containerNoMemory) a = sumPodCPU cs a := by
  induction cs with
  | nil => intro a; rfl
  | cons c rest ih =>
    intro a
    simp only [List.map_cons, sumPodCPU, containerNoMemory, lookup_stripMemory]
    cases c.Requests.lookup ResourceName.ResourceCPU with
    | none => exact ih a
    | some cpu => exact ih _

theorem checkApplication_map (f : Pod → Pod) (hf : ∀ p, (f p).Labels = p.Labels)
    (app : String) (pods : List Pod) :
    checkApplication app (pods.map f) = checkApplication app pods := by
  induction pods with
  | nil => rfl
  | cons p rest ih =>
    simp only [List.map_cons, checkApplication, hf, ih]

theorem Filter_noMemory (pod : Pod) (n : NodeInfo) :
    Filter (podNoMemory pod) (nodeNoMemory n) = Filter pod n :=
  Filter_congr _ _ _ _ (index_stripMemory _) (sumBoundRequests_noMemory _ 0 0 0)
    (sumPodCPU_noMemory _ 0) rfl
    (fun app => checkApplication_map podNoMemory (fun _ => rfl) app n.Pods)

theorem sumBoundRequests_firstContainer (pods : List Pod) :
    ∀ a b : Quantity,
      sumBoundRequests (pods.map podFirstContainer) a b = sumBoundRequests pods a b := by
  induction pods with
  | nil => intro a b; rfl
  | cons p rest ih =>
    intro a b
    cases hcs : p.Containers with
    | nil => simp [sumBoundRequests, podFirstContainer, hcs]
    | cons c cs =>
      simp only [List.map_cons, sumBoundRequests, podFirstContainer, hcs, List.take_succ_cons,
        List.take_zero]
      exact ih _ _

theorem Filter_firstContainers (pod : Pod) (n : NodeInfo) :
    Filter pod (nodeFirstContainers n) = Filter pod n :=
  Filter_congr _ _ _ _ rfl (by rw [nodeFirstContainers, sumBoundRequests_firstContainer])
    rfl rfl
    (fun app => checkApplication_map podFirstContainer (fun _ => rfl) app n.Pods)

theorem sumBoundRequests_error (pods : List Pod) (h : ∃ p ∈ pods, p.Containers = []) :
    ∀ a b : Quantity, sumBoundRequests pods a b = .error Fault.indexOutOfRange := by
  induction pods with
  | nil => obtain ⟨p, hp, _⟩ := h; cases hp
  | cons q rest ih =>
    intro a b
    cases hcs : q.Containers with
    | nil => simp [sumBoundRequests, hcs]
    | cons c cs =>
      have hrest : ∃ p ∈ rest, p.Containers = [] := by
        obtain ⟨p, hp, he⟩ := h
        rcases List.mem_cons.mp hp with rfl | hp
        · rw [hcs] at he; cases he
        · exact ⟨p, hp, he⟩
      simp only [sumBoundRequests, hcs]
      exact ih hrest _ _

/-- On a node without bound workloads `Filter` compares the CPU capacity with
the CPU requested by the pod. -/
theorem Filter_onEmptyNode (pod : Pod) (cap : Quantity) :
    Filter pod (mkNode cap [])
      = if cap > specRequestedCPU pod then .ok (NewStatus Code.Success [])
        else .ok (insufficientStatus pod) := by
  have hc : boundHaveContainer (mkNode cap []) := by
    intro p hp
    cases hp
  have hav : specAvailableCPU (mkNode cap []) = cap := by
    simp [specAvailableCPU, specConsumedCPU, mkNode, ResourceList.index, List.lookup]
  rw [Filter_eq pod (mkNode cap []) hc, hav]
  rfl

/-! ## Filter: memory, later containers, missing containers and labels -/

/-- C12: for two pods that differ only in memory requests and two node
snapshots that differ only in the memory capacity of the node and the memory
requests of the bound workloads, `Filter` gives the same result. -/
theorem Filter_memory_independent (pod1 pod2 : Pod) (n1 n2 : NodeInfo)
    (hp : podNoMemory pod1 = podNoMemory pod2) (hn : nodeNoMemory n1 = nodeNoMemory n2) :
    Filter pod1 n1 = Filter pod2 n2 := by
  rw [← Filter_noMemory pod1 n1, ← Filter_noMemory pod2 n2, hp, hn]

/-- Witness for C12: memory capacity 8 against 16, memory requests 1 against 2
on the bound workload and 5 against 7 on the candidate pod. -/
theorem Filter_memory_independent_witness :
    podNoMemory (podTwo 5 1) = podNoMemory (podTwo 7 1)
      ∧ nodeNoMemory (nodeTwo 8 1 1) = nodeNoMemory (nodeTwo 16 2 1)
      ∧ podTwo 5 1 ≠ podTwo 7 1 ∧ nodeTwo 8 1 1 ≠ nodeTwo 16 2 1
      ∧ Filter (podTwo 5 1) (nodeTwo 8 1 1) = Filter (podTwo 7 1) (nodeTwo 16 2 1) :=
  ⟨rfl, rfl, by simp [podTwo], by simp [nodeTwo],
    Filter_memory_independent (podTwo 5 1) (podTwo 7 1) (nodeTwo 8 1 1) (nodeTwo 16 2 1)
      rfl rfl⟩

/-- C13: for two node snapshots that differ only in the second and later
containers of bound workloads `Filter` gives the same result, whereas replacing
any container of the candidate pod by one with a different CPU request changes
the requested total, and `Filter` uses that total: on some node snapshot the
pod and the changed pod get statuses with different codes. -/
theorem Filter_first_container_only (pod : Pod) (n1 n2 : NodeInfo)
    (h : nodeFirstContainers n1 = nodeFirstContainers n2) :
    Filter pod n1 = Filter pod n2
      ∧ ∀ (pre post : List Container) (c c' : Container),
          pod.Containers = pre ++ c :: post →
          c.Requests.index ResourceName.ResourceCPU
            ≠ c'.Requests.index ResourceName.ResourceCPU →
          sumPodCPU pod.Containers 0 ≠ sumPodCPU (pre ++ c' :: post) 0
            ∧ ∃ (nodeInfo : NodeInfo) (st st' : Status),
                Filter pod nodeInfo = .ok st
                  ∧ Filter { pod with Containers := pre ++ c' :: post } nodeInfo = .ok st'
                  ∧ st.code ≠ st'.code := by
  constructor
  · rw [← Filter_firstContainers pod n1, ← Filter_firstContainers pod n2, h]
  · intro pre post c c' hcs hne
    have key : ∀ S1 S2 x y : Int, 0 + (S1 + (x + S2)) = 0 + (S1 + (y + S2)) → x = y := by
      intro S1 S2 x y hxy
      omega
    have hsum : sumPodCPU pod.Containers 0 ≠ sumPodCPU (pre ++ c' :: post) 0 := by
      intro hEq
      rw [hcs, sumPodCPU_eq, sumPodCPU_eq] at hEq
      simp only [List.map_append, List.map_cons, List.sum_append, List.sum_cons] at hEq
      exact hne (key _ _ _ _ hEq)
    refine ⟨hsum, ?_⟩
    have hreq : specRequestedCPU pod
        ≠ specRequestedCPU { pod with Containers := pre ++ c' :: post } := by
      intro hEq
      apply hsum
      rw [sumPodCPU_eq, sumPodCPU_eq]
      unfold specRequestedCPU at hEq
      rw [hEq]
    rcases lt_or_gt_of_ne hreq with hlt | hgt
    · refine ⟨mkNode (specRequestedCPU { pod with Containers := pre ++ c' :: post }) [],
        NewStatus Code.Success [],
        insufficientStatus { pod with Containers := pre ++ c' :: post }, ?_, ?_, ?_⟩
      · rw [Filter_onEmptyNode, if_pos hlt]
      · rw [Filter_onEmptyNode, if_neg (lt_irrefl _)]
      · simp [NewStatus, insufficientStatus]
    · refine ⟨mkNode (specRequestedCPU pod) [], insufficientStatus pod,
        NewStatus Code.Success [], ?_, ?_, ?_⟩
      · rw [Filter_onEmptyNode, if_neg (lt_irrefl _)]
      · rw [Filter_onEmptyNode, if_pos hgt]
      · simp [NewStatus, insufficientStatus]

/-- Witness for C13: the second container of the bound workload requests 1
unit of CPU in one snapshot and 50 in the other, and the pod of application
"db" requesting 2 of capacity 4 passes in both; raising the request of the
pod's container from 2 to 3 changes the total and, on some node, the code. -/
theorem Filter_first_container_only_witness :
    nodeFirstContainers (nodeTwo 8 1 1) = nodeFirstContainers (nodeTwo 8 1 50)
      ∧ nodeTwo 8 1 1 ≠ nodeTwo 8 1 50
      ∧ Filter (mkPod "p" "db" 2) (nodeTwo 8 1 1) = Filter (mkPod "p" "db" 2) (nodeTwo 8 1 50)
      ∧ Filter (mkPod "p" "db" 2) (nodeTwo 8 1 50) = .ok (NewStatus Code.Success [])
      ∧ (sumPodCPU (mkPod "p" "db" 2).Containers 0
            ≠ sumPodCPU ([] ++ (cpuContainer 3) :: []) 0
          ∧ ∃ (nodeInfo : NodeInfo) (st st' : Status),
              Filter (mkPod "p" "db" 2) nodeInfo = .ok st
                ∧ Filter { mkPod "p" "db" 2 with Containers := [] ++ (cpuContainer 3) :: [] }
                    nodeInfo = .ok st'
                ∧ st.code ≠ st'.code)
      ∧ Filter (mkPod "p" "db" 2) (mkNode 3 []) = .ok (NewStatus Code.Success [])
      ∧ Filter (mkPod "p" "db" 3) (mkNode 3 [])
          = .ok (NewStatus Code.Unschedulable
              ["Not enough resources to run application: ", "db"]) :=
  ⟨rfl, by simp [nodeTwo, podTwo],
    (Filter_first_container_only (mkPod "p" "db" 2) (nodeTwo 8 1 1) (nodeTwo 8 1 50)
      rfl).1,
    rfl,
    (Filter_first_container_only (mkPod "p" "db" 2) (nodeTwo 8 1 1) (nodeTwo 8 1 50)
      rfl).2 [] [] (cpuContainer 2) (cpuContainer 3) rfl (by decide),
    rfl, rfl⟩

/-- C14, as stated, fails: a pod without containers is given `Success` on a
node with spare CPU; no error is reported. -/
theorem Filter_no_containers_success :
    podEmpty.Containers = []
      ∧ Filter podEmpty (mkNode 4 [mkPod "q" "web" 1]) = .ok (NewStatus Code.Success []) :=
  ⟨rfl, rfl⟩

/-- C14, amended: for a node snapshot whose bound workloads each have a
container, `Filter` called with a pod without containers takes the requested
CPU as zero: `Success` when available CPU is positive and no bound workload is
co-located, the co-location rejection when one is, and the
insufficient-resources rejection when available CPU is not positive. -/
theorem Filter_no_containers (pod : Pod) (nodeInfo : NodeInfo)
    (hc : boundHaveContainer nodeInfo) (he : pod.Containers = []) :
    (specAvailableCPU nodeInfo > 0 → ¬ coLocated pod nodeInfo →
        Filter pod nodeInfo = .ok (NewStatus Code.Success []))
      ∧ (specAvailableCPU nodeInfo > 0 → coLocated pod nodeInfo →
        Filter pod nodeInfo = .ok coLocationStatus)
      ∧ (specAvailableCPU nodeInfo ≤ 0 → Filter pod nodeInfo = .ok (insufficientStatus pod)) := by
  have hreq : specRequestedCPU pod = 0 := by simp [specRequestedCPU, he]
  refine ⟨?_, ?_, ?_⟩
  · intro h hno
    rw [Filter_eq pod nodeInfo hc, hreq, if_pos h, checkApplication_absent _ _ hno]
  · intro h happ
    rw [Filter_eq pod nodeInfo hc, hreq, if_pos h, checkApplication_found _ _ happ]
  · intro h
    rw [Filter_eq pod nodeInfo hc, hreq, if_neg (not_lt.mpr h)]

/-- Witness for C14 amended: the pod without containers on a node of capacity
4 with one bound workload requesting 1. -/
theorem Filter_no_containers_witness :
    boundHaveContainer (mkNode 4 [mkPod "q" "web" 1]) ∧ podEmpty.Containers = []
      ∧ specAvailableCPU (mkNode 4 [mkPod "q" "web" 1]) > 0
      ∧ ¬ coLocated podEmpty (mkNode 4 [mkPod "q" "web" 1])
      ∧ Filter podEmpty (mkNode 4 [mkPod "q" "web" 1]) = .ok (NewStatus Code.Success []) :=
  ⟨by decide, rfl, by decide, by decide,
    (Filter_no_containers podEmpty (mkNode 4 [mkPod "q" "web" 1]) (by decide) rfl).1
      (by decide) (by decide)⟩

/-- C15, as stated, fails: with a bound workload that has no container,
`Filter` faults with an index out of range and returns no status. -/
theorem Filter_bound_without_container :
    Filter podWeb (mkNode 4 [podEmpty]) = .error Fault.indexOutOfRange
      ∧ (¬ ∃ st, Filter podWeb (mkNode 4 [podEmpty]) = .ok st)
      ∧ FilterEntry podWeb { node := some (mkNode 4 []).node, Pods := [podEmpty] }
          = .error Fault.indexOutOfRange := by
  refine ⟨rfl, ?_, rfl⟩
  rintro ⟨st, h⟩
  cases h

/-- C15, amended: on a snapshot whose node is set and in which every bound
workload has at least one container, `Filter` returns a status; it is not
total: with the node set and a bound workload without containers it faults
with an index out of range, and on a snapshot without a node it faults with a
nil dereference. -/
theorem Filter_returns (pod : Pod) (ref : NodeInfoRef) :
    (∀ node : Node, ref.node = some node → (∀ p ∈ ref.Pods, p.Containers ≠ []) →
        ∃ st, FilterEntry pod ref = .ok st)
      ∧ (∀ node : Node, ref.node = some node → (∃ p ∈ ref.Pods, p.Containers = []) →
        FilterEntry pod ref = .error Fault.indexOutOfRange)
      ∧ (ref.node = none → FilterEntry pod ref = .error Fault.nilDereference) := by
  refine ⟨?_, ?_, ?_⟩
  · intro node hnode hc
    have hc' : boundHaveContainer { node := node, Pods := ref.Pods } := hc
    simp only [FilterEntry, hnode]
    rw [Filter_eq pod _ hc']
    split_ifs
    · exact ⟨_, rfl⟩
    · exact ⟨_, rfl⟩
  · intro node hnode hex
    simp only [FilterEntry, hnode, Filter, sumBoundRequests_error ref.Pods hex 0 0]
  · intro hnode
    simp only [FilterEntry, hnode]

/-- Witness for C15 amended: with the node set and a bound workload holding a
container the call returns; with a bound workload without containers it faults
with an index out of range; without a node it faults with a nil dereference. -/
theorem Filter_returns_witness :
    (∃ st, FilterEntry podWeb { node := some (mkNode 4 []).node, Pods := [mkPod "q" "web" 1] }
        = .ok st)
      ∧ FilterEntry podWeb { node := some (mkNode 4 []).node, Pods := [podEmpty] }
          = .error Fault.indexOutOfRange
      ∧ FilterEntry podWeb { node := none, Pods := [mkPod "q" "web" 1] }
          = .error Fault.nilDereference :=
  ⟨(Filter_returns podWeb { node := some (mkNode 4 []).node, Pods := [mkPod "q" "web" 1] }).1
      (mkNode 4 []).node rfl (by decide),
    (Filter_returns podWeb { node := some (mkNode 4 []).node, Pods := [podEmpty] }).2.1
      (mkNode 4 []).node rfl ⟨podEmpty, by simp, rfl⟩,
    (Filter_returns podWeb { node := none, Pods := [mkPod "q" "web" 1] }).2.2 rfl⟩

/-- C16: for every random source, pod and node name, `Score` returns an
integer between 0 and 100 together with the nil status. -/
theorem Score_range (seeded : RandSource) (pod : Pod) (nodeName : String) :
    ∃ s, Score seeded pod nodeName = (s, none) ∧ 0 ≤ s ∧ s ≤ 100 := by
  have h := seeded.inRange 101 (by decide)
  exact ⟨seeded.Int63n 101, rfl, h.1, by omega⟩

/-- C20: with strictly sufficient CPU, `Filter` returns `Success` when no bound
workload carries the label `applicationName`, whatever the labels of the pod;
and a pod without the label is rejected for co-location when some bound
workload carries the label with the empty string as value. -/
theorem Filter_unlabelled (pod : Pod) (nodeInfo : NodeInfo)
    (hc : boundHaveContainer nodeInfo)
    (h : specAvailableCPU nodeInfo > specRequestedCPU pod) :
    ((∀ p ∈ nodeInfo.Pods, p.Labels.lookup "applicationName" = none) →
        Filter pod nodeInfo = .ok (NewStatus Code.Success []))
      ∧ (pod.Labels.lookup "applicationName" = none →
          (∃ p ∈ nodeInfo.Pods, p.Labels.lookup "applicationName" = some "") →
          Filter pod nodeInfo = .ok coLocationStatus) := by
  constructor
  · intro hnone
    have hno : ¬ ∃ p ∈ nodeInfo.Pods,
        p.Labels.lookup "applicationName" = some (labelIndex pod.Labels "applicationName") := by
      rintro ⟨p, hp, hv⟩
      rw [hnone p hp] at hv
      cases hv
    rw [Filter_eq pod nodeInfo hc, if_pos h, checkApplication_absent _ _ hno]
  · intro hpod hex
    have hlab : labelIndex pod.Labels "applicationName" = "" := by
      simp [labelIndex, hpod]
    rw [Filter_eq pod nodeInfo hc, if_pos h, hlab, checkApplication_found _ _ hex]

/-- Witness for C20: a pod without labels requesting 2 of capacity 4 is
admitted beside a bound workload without labels and rejected beside a bound
workload whose `applicationName` label is the empty string. -/
theorem Filter_unlabelled_witness :
    boundHaveContainer (mkNode 4 [podNoLabel "q" 1])
      ∧ specAvailableCPU (mkNode 4 [podNoLabel "q" 1]) > specRequestedCPU (podNoLabel "p" 2)
      ∧ Filter (podNoLabel "p" 2) (mkNode 4 [podNoLabel "q" 1])
          = .ok (NewStatus Code.Success [])
      ∧ boundHaveContainer (mkNode 4 [mkPod "q" "" 1])
      ∧ specAvailableCPU (mkNode 4 [mkPod "q" "" 1]) > specRequestedCPU (podNoLabel "p" 2)
      ∧ Filter (podNoLabel "p" 2) (mkNode 4 [mkPod "q" "" 1]) = .ok coLocationStatus :=
  ⟨by decide, by decide,
    (Filter_unlabelled (podNoLabel "p" 2) (mkNode 4 [podNoLabel "q" 1]) (by decide)
      (by decide)).1 (by decide),
    by decide, by decide,
    (Filter_unlabelled (podNoLabel "p" 2) (mkNode 4 [mkPod "q" "" 1]) (by decide)
      (by decide)).2 rfl ⟨mkPod "q" "" 1, by simp [mkNode], rfl⟩⟩

end plugins
